import Mathlib

/-!
Verification of the awsenv configuration-synchronization core.

Strings are modelled as lists of characters (`Str`). The definitions below
are shallow embeddings of:
  - `src/lib/env-parser.js` (the robust .env parser);
  - the inline parser, secret classifier, path mapper and batch logic of
    `EnvSync` (`src/sync.js`);
  - the listing/confirmation/deletion logic of `EnvPurge` (`src/purge.js`);
  - the bounded-concurrency pool used by both (the external p-limit
    dependency), modelled from the specification.
JavaScript regular-expression tests are embedded as equivalent executable
scanners; JavaScript whitespace is restricted to the characters that can
actually occur in the inputs of interest (ASCII whitespace, NBSP, BOM).
-/

abbrev Str := List Char

/-- Convert a Lean string literal to the character-list representation. -/
def str (s : String) : Str := s.data

/-- The backtick character, used for template-literal quoting. -/
def backtick : Char := Char.ofNat 96

/-- Characters treated as whitespace by the JS `trim` and the regex class
used in the parsers (ASCII whitespace plus NBSP, line separators, BOM). -/
def isJsSpace (c : Char) : Bool :=
  c == ' ' || c == '\t' || c == '\n' || c == '\r' ||
  c == Char.ofNat 11 || c == Char.ofNat 12 ||
  c == Char.ofNat 160 || c == Char.ofNat 8232 || c == Char.ofNat 8233 ||
  c == Char.ofNat 65279

/-- JS `String.prototype.trim`: drop whitespace from both ends. -/
def trimJs (s : Str) : Str :=
  ((s.dropWhile isJsSpace).reverse.dropWhile isJsSpace).reverse

/-- JS `content.split('\n')`. -/
def splitLines : Str → List Str
  | [] => [[]]
  | c :: rest =>
    match splitLines rest with
    | [] => [[]]
    | l :: ls => if c = '\n' then [] :: l :: ls else (c :: l) :: ls

/-- `s.startsWith(c)` for a single character. -/
def startsWithChar (c : Char) (s : Str) : Bool := s.head? == some c

/-- `s.endsWith(c)` for a single character. -/
def endsWithChar (c : Char) (s : Str) : Bool := s.getLast? == some c

/-- First character of the key pattern `[A-Z_]` under the `/i` flag. -/
def isKeyStart (c : Char) : Bool := c.isAlpha || c == '_'

/-- Subsequent characters of the key pattern `[A-Z0-9_]` under `/i`. -/
def isKeyChar (c : Char) : Bool := c.isAlphanum || c == '_'

/-- The anchored match `^([A-Z_][A-Z0-9_]*)\s*=\s*(.*)$` (flag `i`) used by
both parsers: returns the captured key and raw value, or `none` when the
line does not have the KEY=VALUE shape.  The character classes involved
(key characters, whitespace, `=`) are disjoint, so the greedy regex match
is equivalent to this deterministic scanner. -/
def matchKeyValue (line : Str) : Option (Str × Str) :=
  match line with
  | [] => none
  | c :: rest =>
    if isKeyStart c then
      let key := c :: rest.takeWhile isKeyChar
      let afterKey := (rest.dropWhile isKeyChar).dropWhile isJsSpace
      match afterKey with
      | '=' :: tail => some (key, tail.dropWhile isJsSpace)
      | _ => none
    else none

/-- Escape decoding for double-quoted values
(`processEscapeSequences` in `src/lib/env-parser.js`). -/
def processEscapeSequences : Str → Str
  | [] => []
  | '\\' :: c :: rest =>
    if c = 'n' then '\n' :: processEscapeSequences rest
    else if c = 'r' then '\r' :: processEscapeSequences rest
    else if c = 't' then '\t' :: processEscapeSequences rest
    else if c = '"' then '"' :: processEscapeSequences rest
    else if c = '\'' then '\'' :: processEscapeSequences rest
    else if c = '\\' then '\\' :: processEscapeSequences rest
    else '\\' :: processEscapeSequences (c :: rest)
  | c :: rest => c :: processEscapeSequences rest

/-- `inner.replace(/\\'/g, "'")`: the only escape decoded in single-quoted
values (`parseSingleQuoted` in `src/lib/env-parser.js`). -/
def replaceEscapedSingleQuote : Str → Str
  | [] => []
  | [c] => [c]
  | c1 :: c2 :: rest =>
    if c1 = '\\' ∧ c2 = '\'' then '\'' :: replaceEscapedSingleQuote rest
    else c1 :: replaceEscapedSingleQuote (c2 :: rest)

/-- The value ends with quote `q` and the run of backslashes immediately
before it has even length (the "unescaped closing quote" test of
`parseDoubleQuoted` / the single-line path of `parseSingleQuoted`). -/
def endsUnescaped (q : Char) (s : Str) : Bool :=
  match s.reverse with
  | [] => false
  | c :: r => c == q && (r.takeWhile (fun x => x == '\\')).length % 2 == 0

/-- The multi-line closing test of `parseSingleQuoted`:
`fullValue.endsWith("'") && !fullValue.endsWith("\\'")`. -/
def closeSingleML (s : Str) : Bool :=
  match s.reverse with
  | [] => false
  | c :: r => c == '\'' && !(r.head? == some '\\')

/-- The multi-line collection loop shared by the three quoted decoders of
`src/lib/env-parser.js`: while further lines remain, test `close` on the
accumulated value, append the next line joined by a newline, and give up
(returning the original still-quoted `orig`) once more than 100 lines have
been appended; after the last line, test `close` once more. -/
def quoteLoop (close : Str → Bool) (dec : Str → Str) (orig : Str) :
    Str → List Str → Nat → Str
  | fv, [], _ => if close fv then dec fv else orig
  | fv, _ :: _, 0 => if close fv then dec fv else orig
  | fv, l :: rest, b + 1 =>
    if close fv then dec fv
    else quoteLoop close dec orig (fv ++ '\n' :: l) rest b

/-- The value accumulated by `quoteLoop` after `k` lines have been
appended (joined by newlines). -/
def accumAfter : Str → List Str → Nat → Str
  | fv, _, 0 => fv
  | fv, [], _ + 1 => fv
  | fv, l :: rest, k + 1 => accumAfter (fv ++ '\n' :: l) rest k

/-- `parseDoubleQuoted(value, lines, currentIndex)`; `rest` stands for
`lines[currentIndex+1..]`, the only part of `lines` the source consults. -/
def parseDoubleQuoted (value : Str) (rest : List Str) : Str :=
  if decide (1 < value.length) && endsUnescaped '"' value then
    processEscapeSequences ((value.drop 1).dropLast)
  else
    quoteLoop (endsUnescaped '"') (fun s => processEscapeSequences s.dropLast)
      value (value.drop 1) rest 100

/-- `parseSingleQuoted(value, lines, currentIndex)`.  The single-line path
uses the even-backslash test; the multi-line path uses `closeSingleML`. -/
def parseSingleQuoted (value : Str) (rest : List Str) : Str :=
  if decide (1 < value.length) && endsUnescaped '\'' value then
    replaceEscapedSingleQuote ((value.drop 1).dropLast)
  else
    quoteLoop closeSingleML (fun s => replaceEscapedSingleQuote s.dropLast)
      value (value.drop 1) rest 100

/-- `parseBacktickQuoted(value, lines, currentIndex)`: no escape
processing at all. -/
def parseBacktickQuoted (value : Str) (rest : List Str) : Str :=
  if decide (1 < value.length) && endsWithChar backtick value then
    (value.drop 1).dropLast
  else
    quoteLoop (endsWithChar backtick) (fun s => s.dropLast)
      value (value.drop 1) rest 100

/-- `parseValue(value, lines, currentIndex)` of `src/lib/env-parser.js`:
empty value yields the empty string, otherwise trim and dispatch on the
first character. -/
def parseValue (value : Str) (rest : List Str) : Str :=
  if value = [] then []
  else
    let v := trimJs value
    if startsWithChar '"' v then parseDoubleQuoted v rest
    else if startsWithChar '\'' v then parseSingleQuoted v rest
    else if startsWithChar backtick v then parseBacktickQuoted v rest
    else v

/-- Insertion into the result object: JS property assignment keeps the
first position of an existing key and overwrites its value. -/
def upsert : List (Str × Str) → Str → Str → List (Str × Str)
  | [], k, v => [(k, v)]
  | (k', v') :: rest, k, v =>
    if k' = k then (k', v) :: rest else (k', v') :: upsert rest k v

/-- The line loop of `parseEnvContent` in `src/lib/env-parser.js`: skip
blank and comment lines, skip lines without the KEY=VALUE shape, and
decode the value of each matching line (`rest` is passed on because the
quoted decoders may consume the following lines). -/
def parseEnvLines : List Str → List (Str × Str) → List (Str × Str)
  | [], env => env
  | line :: rest, env =>
    if trimJs line = [] then parseEnvLines rest env
    else if startsWithChar '#' (trimJs line) then parseEnvLines rest env
    else
      match matchKeyValue line with
      | none => parseEnvLines rest env
      | some kv => parseEnvLines rest (upsert env kv.1 (parseValue kv.2 rest))

/-- `parseEnvContent(content)` of `src/lib/env-parser.js`. -/
def parseEnvContent (content : Str) : List (Str × Str) :=
  parseEnvLines (splitLines content) []

/-- The quote stripping of `EnvSync.parseEnvContent` (`src/sync.js`):
remove one pair of surrounding matching quotes when present. -/
def cleanQuotes (v : Str) : Str :=
  if (startsWithChar '"' v && endsWithChar '"' v) ||
     (startsWithChar '\'' v && endsWithChar '\'' v) then
    (v.drop 1).dropLast
  else v

/-- The line loop of `EnvSync.parseEnvContent` (`src/sync.js`): each line
is trimmed first, then matched against KEY=VALUE; the value is trimmed and
stripped of surrounding quotes, with no escape decoding and no multi-line
collection. -/
def syncParseLines : List Str → List (Str × Str) → List (Str × Str)
  | [], env => env
  | line0 :: rest, env =>
    if trimJs line0 = [] then syncParseLines rest env
    else if startsWithChar '#' (trimJs line0) then syncParseLines rest env
    else
      match matchKeyValue (trimJs line0) with
      | none => syncParseLines rest env
      | some kv => syncParseLines rest (upsert env kv.1 (cleanQuotes (trimJs kv.2)))

/-- `EnvSync.parseEnvContent(content)` (`src/sync.js`). -/
def syncParseEnvContent (content : Str) : List (Str × Str) :=
  syncParseLines (splitLines content) []

/-- The fixed SECRET_PATTERNS word list of `src/sync.js` (each pattern is a
case-insensitive substring test). -/
def secretWordList : List Str :=
  [str "password", str "secret", str "key", str "token", str "auth",
   str "credential", str "pass", str "pwd", str "private", str "cert",
   str "ssl", str "tls", str "encrypt", str "hash", str "salt"]

/-- ASCII lowercase conversion, the case folding relevant to the
case-insensitive regex tests (all patterns are ASCII). -/
def toLowerAscii (c : Char) : Char :=
  if 'A' ≤ c ∧ c ≤ 'Z' then Char.ofNat (c.toNat + 32) else c

/-- JS `hay.includes(needle)`: some suffix of `hay` starts with `needle`. -/
def includesSub (hay needle : Str) : Bool :=
  hay.tails.any (fun t => needle.isPrefixOf t)

/-- The base64-ish alphabet `[A-Za-z0-9+/=]`. -/
def isB64Char (c : Char) : Bool :=
  c.isAlphanum || c == '+' || c == '/' || c == '='

/-- The regex test `/[A-Za-z0-9+/=]{20,}/.test(value)`: some window of 20
consecutive characters lies in the base64-ish alphabet. -/
def hasB64Run (v : Str) : Bool :=
  v.tails.any (fun t => decide (20 ≤ t.length) && (t.take 20).all isB64Char)

/-- The regex test `/^https?:\/\//.test(value)`. -/
def isUrlValue (v : Str) : Bool :=
  (str "http://").isPrefixOf v || (str "https://").isPrefixOf v

/-- The regex test `/^\d+$/.test(value)`. -/
def isAllDigits (v : Str) : Bool :=
  !v.isEmpty && v.all (fun c => c.isDigit)

/-- `EnvSync.isSecret(key, value)` (`src/sync.js`); `encrypt` is the
stored `this.encrypt` flag. -/
def isSecret (encrypt : Bool) (key value : Str) : Bool :=
  if encrypt then true
  else
    let keyIsSecret := secretWordList.any
      (fun w => includesSub (key.map toLowerAscii) w)
    let valueIsSecret := decide (20 < value.length) && hasB64Run value &&
      !(isUrlValue value) && !(isAllDigits value)
    keyIsSecret || valueIsSecret

/-- `EnvSync.createParameterPath(key)`: namespace with one trailing slash
stripped, then a slash, then the key. -/
def createParameterPath (ns key : Str) : Str :=
  (if endsWithChar '/' ns then ns.dropLast else ns) ++ '/' :: key

/-- One parameter sent to the remote store (`prepareParameters` in
`src/sync.js`; the JS field `Type` is rendered as `paramType`). -/
structure ParameterRecord where
  Name : Str
  Value : Str
  paramType : Str
  Overwrite : Bool
  Description : Str
deriving DecidableEq

/-- `EnvSync.prepareParameters(envVars)` (`src/sync.js`). -/
def prepareParameters (encrypt : Bool) (ns : Str) (envVars : List (Str × Str)) :
    List ParameterRecord :=
  envVars.map (fun kv =>
    { Name := createParameterPath ns kv.1
    , Value := kv.2
    , paramType := if isSecret encrypt kv.1 kv.2 then str "SecureString" else str "String"
    , Overwrite := true
    , Description := str "Environment variable " ++ kv.1 ++ str " synced from .env file" })

/-- The error signal of a rejected remote call (SDK error name and
message). -/
structure ErrorInfo where
  name : Str
  msg : Str
deriving DecidableEq

/-- Outcome of one remote call as provided by the environment. -/
inductive CallOutcome
  | ok
  | err (e : ErrorInfo)
deriving DecidableEq

/-- Per-item result record `{ success, parameter, error? }`. -/
structure OpResult where
  success : Bool
  parameter : Str
  error : Option Str
deriving DecidableEq

/-- Authentication / invalid-credential detection in the catch of
`EnvSync.uploadParameters`. -/
def isAuthInvalidError (e : ErrorInfo) : Bool :=
  e.name == str "UnrecognizedClientException" ||
  e.name == str "InvalidClientTokenId" ||
  includesSub e.msg (str "security token") ||
  includesSub e.msg (str "invalid")

/-- Expired-token detection in the catch of `EnvSync.uploadParameters`. -/
def isExpiredTokenError (e : ErrorInfo) : Bool :=
  e.name == str "ExpiredToken" ||
  e.name == str "ExpiredTokenException" ||
  includesSub e.msg (str "expired")

/-- Access-denied detection in the catch of `EnvSync.uploadParameters`. -/
def isAccessDeniedError (e : ErrorInfo) : Bool :=
  e.name == str "AccessDeniedException" ||
  e.name == str "UnauthorizedException" ||
  includesSub e.msg (str "not authorized")

/-- An error class that makes `EnvSync.uploadParameters` terminate the
whole process (`process.exit(1)`). -/
def isFatalAwsError (e : ErrorInfo) : Bool :=
  isAuthInvalidError e || isExpiredTokenError e || isAccessDeniedError e

/-- Result of a sync upload batch: either every item produced a per-item
result, or a fatal error class terminated the process, leaving the listed
parameter names undispatched. -/
inductive UploadOutcome
  | completed (results : List OpResult)
  | fatalAborted (undispatched : List Str)
deriving DecidableEq

/-- `EnvSync.uploadParameters` (`src/sync.js`) over the sequence of
admitted calls: a successful call yields a success record, a non-fatal
error yields a failure record with the error message, and a fatal error
class terminates the process so that the remaining calls are never
dispatched. -/
def uploadBatch : List (Str × CallOutcome) → UploadOutcome
  | [] => .completed []
  | (n, .ok) :: rest =>
    match uploadBatch rest with
    | .completed rs => .completed (⟨true, n, none⟩ :: rs)
    | .fatalAborted u => .fatalAborted u
  | (n, .err e) :: rest =>
    if isFatalAwsError e then .fatalAborted (rest.map Prod.fst)
    else
      match uploadBatch rest with
      | .completed rs => .completed (⟨false, n, some e.msg⟩ :: rs)
      | .fatalAborted u => .fatalAborted u

/-- The parameter names for which a put call is actually dispatched by
`uploadBatch` (everything up to and including a fatal call). -/
def dispatchedNames : List (Str × CallOutcome) → List Str
  | [] => []
  | (n, .ok) :: rest => n :: dispatchedNames rest
  | (n, .err e) :: rest =>
    if isFatalAwsError e then [n] else n :: dispatchedNames rest

/-- `EnvPurge.deleteParameters` (`src/purge.js`): every error, of any
class, is captured as a per-item failure record; the batch always runs to
completion. -/
def deleteBatch : List (Str × CallOutcome) → List OpResult
  | [] => []
  | (n, .ok) :: rest => ⟨true, n, none⟩ :: deleteBatch rest
  | (n, .err e) :: rest => ⟨false, n, some e.msg⟩ :: deleteBatch rest

/-- The per-item result record an isolated (non-aborting) batch produces
for one call. -/
def itemResult : Str × CallOutcome → OpResult
  | (n, .ok) => ⟨true, n, none⟩
  | (n, .err e) => ⟨false, n, some e.msg⟩

/-- Process termination status of a run. -/
inductive ProcOutcome
  | success
  | failure
deriving DecidableEq

/-- `results.filter(r => !r.success).length`. -/
def countFailed (rs : List OpResult) : Nat :=
  (rs.filter (fun r => !r.success)).length

/-- `results.filter(r => r.success).length`. -/
def countSucceeded (rs : List OpResult) : Nat :=
  (rs.filter (fun r => r.success)).length

/-- Options of `EnvSync` relevant to the engine (`this.namespace` may be
absent, `this.dryRun`, `this.encrypt`). -/
structure SyncOptions where
  namespaceOpt : Option Str
  dryRun : Bool
  encrypt : Bool

/-- Observable effects of one `EnvSync.sync()` invocation. -/
structure SyncRun where
  putCalls : List Str
  displayed : List ParameterRecord
  results : List OpResult
  successCount : Nat
  failedCount : Nat
  outcome : ProcOutcome
deriving DecidableEq

/-- `EnvSync.displayDryRun(parameters)` (`src/sync.js`): the body is the
comment "Dry run display removed" — nothing is printed, so the list of
reported records is empty. -/
def displayDryRun (_ : List ParameterRecord) : List ParameterRecord := []

/-- `EnvSync.sync()` (`src/sync.js`) with the value source already read
into `content` and the remote put outcomes supplied by `oracle`: validate
the namespace, parse, stop as a no-op on zero entries, prepare and
(when not a dry run) upload, then exit non-zero exactly when some item
failed. -/
def syncRun (opts : SyncOptions) (content : Str) (oracle : Str → CallOutcome) :
    SyncRun :=
  match opts.namespaceOpt with
  | none =>
    { putCalls := [], displayed := [], results := []
    , successCount := 0, failedCount := 0, outcome := .failure }
  | some ns =>
    let envVars := syncParseEnvContent content
    if envVars.isEmpty then
      { putCalls := [], displayed := [], results := []
      , successCount := 0, failedCount := 0, outcome := .success }
    else
      let params := prepareParameters opts.encrypt ns envVars
      let shown := displayDryRun params
      if opts.dryRun then
        { putCalls := [], displayed := shown, results := []
        , successCount := 0, failedCount := 0, outcome := .success }
      else
        let calls := params.map (fun p => (p.Name, oracle p.Name))
        match uploadBatch calls with
        | .fatalAborted _ =>
          { putCalls := dispatchedNames calls, displayed := shown, results := []
          , successCount := 0, failedCount := 0, outcome := .failure }
        | .completed rs =>
          { putCalls := dispatchedNames calls, displayed := shown, results := rs
          , successCount := countSucceeded rs, failedCount := countFailed rs
          , outcome := if 0 < countFailed rs then .failure else .success }

/-- Options of `EnvPurge` (`this.namespace` may be absent, `this.force`,
`this.paranoid`). -/
structure PurgeOptions where
  namespaceOpt : Option Str
  force : Bool
  paranoid : Bool

/-- Observable effects of one `EnvPurge.purge()` invocation. -/
structure PurgeRun where
  listCalls : Nat
  deleteCalls : List Str
  results : List OpResult
  promptCount : Nat
  outcome : ProcOutcome
deriving DecidableEq

/-- `EnvPurge.askConfirmation` (`src/purge.js`) with the operator's two
answers supplied: `force` confirms with no prompt; otherwise the first
answer must lowercase to "yes" and the second must equal the namespace
exactly.  Returns the decision and the number of prompts shown. -/
def askConfirmation (force : Bool) (ns : Str) (a1 a2 : Str) : Bool × Nat :=
  if force then (true, 0)
  else if !(a1.map toLowerAscii == str "yes") then (false, 1)
  else (a2 == ns, 2)

/-- `EnvPurge.purge()` (`src/purge.js`) with the remote listing result
supplied as `listed` and delete outcomes supplied by `oracle`: the
paranoid lock is checked before anything else, then the namespace, then
the listing (empty is a silent success), then the confirmation gate, then
the deletion batch.  After the batch the run always completes with
success status (the caller then calls `process.exit(0)`); only the
paranoid lock and a missing namespace exit non-zero. -/
def purgeRun (opts : PurgeOptions) (listed : List Str)
    (oracle : Str → CallOutcome) (a1 a2 : Str) : PurgeRun :=
  if opts.paranoid then
    { listCalls := 0, deleteCalls := [], results := []
    , promptCount := 0, outcome := .failure }
  else
    match opts.namespaceOpt with
    | none =>
      { listCalls := 0, deleteCalls := [], results := []
      , promptCount := 0, outcome := .failure }
    | some ns =>
      if listed.isEmpty then
        { listCalls := 1, deleteCalls := [], results := []
        , promptCount := 0, outcome := .success }
      else
        let conf := askConfirmation opts.force ns a1 a2
        if conf.1 then
          { listCalls := 1, deleteCalls := listed
          , results := deleteBatch (listed.map (fun n => (n, oracle n)))
          , promptCount := conf.2, outcome := .success }
        else
          { listCalls := 1, deleteCalls := [], results := []
          , promptCount := conf.2, outcome := .success }

/-- Modelled from the spec: the bounded-concurrency pool provided by the
external p-limit dependency (`pLimit(3)` in `src/sync.js` and
`src/purge.js`, not part of this repository's sources).  A state counts
queued, in-flight and finished tasks; a queued task may start only while
fewer than `limit` tasks are in flight, and an in-flight task may
finish. -/
structure PoolState where
  pending : Nat
  active : Nat
  done : Nat
deriving DecidableEq

/-- One scheduling step of the bounded pool with admission width
`limit`. -/
inductive PoolStep (limit : Nat) : PoolState → PoolState → Prop
  | start (s : PoolState) (hp : 0 < s.pending) (ha : s.active < limit) :
      PoolStep limit s ⟨s.pending - 1, s.active + 1, s.done⟩
  | finish (s : PoolState) (ha : 0 < s.active) :
      PoolStep limit s ⟨s.pending, s.active - 1, s.done + 1⟩

/-- Reachability in the pool's transition system. -/
def poolReach (limit : Nat) : PoolState → PoolState → Prop :=
  Relation.ReflTransGen (PoolStep limit)

/-- The pool state at the start of a batch of `n` tasks. -/
def initPool (n : Nat) : PoolState := ⟨n, 0, 0⟩

/-- A line on which the two parsers of the repository can be compared
directly: it carries no surrounding whitespace, and if it has the
KEY=VALUE shape its (trimmed) value is not quoted. -/
def plainLine (line : Str) : Bool :=
  (trimJs line == line) &&
  (match matchKeyValue line with
   | none => true
   | some kv =>
     !(startsWithChar '"' (trimJs kv.2) || startsWithChar '\'' (trimJs kv.2) ||
       startsWithChar backtick (trimJs kv.2)))

theorem poolStep_active_le {limit : Nat} {s t : PoolState}
    (h : PoolStep limit s t) (hs : s.active ≤ limit) : t.active ≤ limit := by
  cases h with
  | start hp ha => simpa using ha
  | finish ha => simp only; omega

/-- C7: in the bounded pool of width 3 (the p-limit collaborator, modelled
from the spec), every state reachable from the start of a batch of any
size has at most 3 tasks in flight. -/
theorem c7_concurrency_bound (n : Nat) (s : PoolState)
    (h : poolReach 3 (initPool n) s) : s.active ≤ 3 := by
  induction h with
  | refl => simp [initPool]
  | tail _ hstep ih => exact poolStep_active_le hstep ih

theorem c7_concurrency_bound_witness :
    poolReach 3 (initPool 5) ⟨4, 1, 0⟩ ∧ (⟨4, 1, 0⟩ : PoolState).active ≤ 3 :=
  have hreach : poolReach 3 (initPool 5) ⟨4, 1, 0⟩ :=
    Relation.ReflTransGen.single (PoolStep.start (initPool 5) (by decide) (by decide))
  ⟨hreach, c7_concurrency_bound 5 ⟨4, 1, 0⟩ hreach⟩

/-- C9: with the paranoid flag set, purge refuses fatally before any
remote call: no listing call, no deletion call and no prompt, regardless
of the force flag, the namespace, the remote contents and the operator's
answers. -/
theorem c9_paranoid_lock (opts : PurgeOptions) (listed : List Str)
    (oracle : Str → CallOutcome) (a1 a2 : Str) (h : opts.paranoid = true) :
    purgeRun opts listed oracle a1 a2 =
      { listCalls := 0, deleteCalls := [], results := []
      , promptCount := 0, outcome := .failure } := by
  simp [purgeRun, h]

theorem c9_paranoid_lock_witness :
    (⟨some (str "/prod/app"), true, true⟩ : PurgeOptions).paranoid = true ∧
    purgeRun ⟨some (str "/prod/app"), true, true⟩ [str "/prod/app/A"]
      (fun _ => CallOutcome.ok) (str "yes") (str "/prod/app") =
      { listCalls := 0, deleteCalls := [], results := []
      , promptCount := 0, outcome := .failure } :=
  ⟨rfl, c9_paranoid_lock _ _ _ _ _ rfl⟩

/-- C10: the purge confirmation gate confirms with no prompt when force is
set; otherwise it proceeds past the first prompt exactly when the
lowercased answer is "yes", and then confirms exactly when the second
answer equals the namespace character for character; and whenever the gate
does not confirm, the purge issues no deletions and ends as a normal
(non-error) cancellation. -/
theorem c10_confirmation_gate :
    (∀ ns a1 a2 : Str, askConfirmation true ns a1 a2 = (true, 0)) ∧
    (∀ ns a1 a2 : Str, a1.map toLowerAscii ≠ str "yes" →
      askConfirmation false ns a1 a2 = (false, 1)) ∧
    (∀ ns a1 a2 : Str, a1.map toLowerAscii = str "yes" →
      askConfirmation false ns a1 a2 = (a2 == ns, 2)) ∧
    (∀ (opts : PurgeOptions) (listed : List Str) (oracle : Str → CallOutcome)
       (a1 a2 ns : Str), opts.paranoid = false → opts.namespaceOpt = some ns →
      (askConfirmation opts.force ns a1 a2).1 = false →
      (purgeRun opts listed oracle a1 a2).deleteCalls = [] ∧
      (purgeRun opts listed oracle a1 a2).results = [] ∧
      (purgeRun opts listed oracle a1 a2).outcome = .success) := by
  refine ⟨?_, ?_, ?_, ?_⟩
  · intro ns a1 a2
    simp [askConfirmation]
  · intro ns a1 a2 h
    have hb : (a1.map toLowerAscii == str "yes") = false :=
      beq_eq_false_iff_ne.mpr h
    simp [askConfirmation, hb]
  · intro ns a1 a2 h
    have hb : (a1.map toLowerAscii == str "yes") = true := beq_iff_eq.mpr h
    simp [askConfirmation, hb]
  · intro opts listed oracle a1 a2 ns hp hns hc
    obtain ⟨nso, f, p⟩ := opts
    simp only at hp hns hc
    subst hp hns
    by_cases hL : listed.isEmpty <;> simp [purgeRun, hL, hc]

theorem c10_confirmation_gate_witness :
    askConfirmation true (str "/t/a") (str "no") (str "x") = (true, 0) ∧
    ((str "no").map toLowerAscii ≠ str "yes" ∧
      askConfirmation false (str "/t/a") (str "no") (str "/t/a") = (false, 1)) ∧
    ((str "YES").map toLowerAscii = str "yes" ∧
      askConfirmation false (str "/t/a") (str "YES") (str "/t/a") =
        ((str "/t/a" == str "/t/a"), 2)) ∧
    ((purgeRun ⟨some (str "/t/a"), false, false⟩ [str "/t/a/A"]
        (fun _ => CallOutcome.ok) (str "no") (str "/t/a")).deleteCalls = [] ∧
      (purgeRun ⟨some (str "/t/a"), false, false⟩ [str "/t/a/A"]
        (fun _ => CallOutcome.ok) (str "no") (str "/t/a")).results = [] ∧
      (purgeRun ⟨some (str "/t/a"), false, false⟩ [str "/t/a/A"]
        (fun _ => CallOutcome.ok) (str "no") (str "/t/a")).outcome = .success) :=
  ⟨c10_confirmation_gate.1 _ _ _,
   ⟨by decide, c10_confirmation_gate.2.1 _ _ _ (by decide)⟩,
   ⟨by decide, c10_confirmation_gate.2.2.1 _ _ _ (by decide)⟩,
   c10_confirmation_gate.2.2.2 _ _ _ _ _ _ rfl rfl (by decide)⟩

/-- C8 (amended): with dryRun set, sync performs no remote put call; the
dry-run display hook is a no-op, so the list of reported records is empty
rather than the classified records. -/
theorem c8_dry_run (opts : SyncOptions) (content : Str)
    (oracle : Str → CallOutcome) (h : opts.dryRun = true) :
    (syncRun opts content oracle).putCalls = [] ∧
    (syncRun opts content oracle).displayed = [] := by
  obtain ⟨nso, d, e⟩ := opts
  simp only at h
  subst h
  cases nso with
  | none => simp [syncRun]
  | some ns =>
    by_cases hE : (syncParseEnvContent content).isEmpty <;>
      simp [syncRun, hE, displayDryRun]

theorem c8_dry_run_witness :
    (⟨some (str "/test/app"), true, false⟩ : SyncOptions).dryRun = true ∧
    ((syncRun ⟨some (str "/test/app"), true, false⟩
        (str "NODE_ENV=production\nAPI_SECRET=\"abc123def456ghi789jkl\"")
        (fun _ => CallOutcome.ok)).putCalls = [] ∧
      (syncRun ⟨some (str "/test/app"), true, false⟩
        (str "NODE_ENV=production\nAPI_SECRET=\"abc123def456ghi789jkl\"")
        (fun _ => CallOutcome.ok)).displayed = []) :=
  ⟨rfl, c8_dry_run _ _ _ rfl⟩

/-- C8 (counterexample): on a dry run with two entries the engine performs
no put call, but it also reports no records — the displayed list is empty
while the classified records that would be written are not, so the claim
that the engine reports them is false. -/
theorem c8_dry_run_counterexample :
    (syncRun ⟨some (str "/test/app"), true, false⟩
      (str "NODE_ENV=production\nAPI_SECRET=\"abc123def456ghi789jkl\"")
      (fun _ => CallOutcome.ok)).putCalls = [] ∧
    (syncRun ⟨some (str "/test/app"), true, false⟩
      (str "NODE_ENV=production\nAPI_SECRET=\"abc123def456ghi789jkl\"")
      (fun _ => CallOutcome.ok)).displayed = [] ∧
    prepareParameters false (str "/test/app")
      (syncParseEnvContent
        (str "NODE_ENV=production\nAPI_SECRET=\"abc123def456ghi789jkl\"")) ≠ [] := by
  refine ⟨by decide, by decide, by decide⟩

theorem countFailed_pos_iff (rs : List OpResult) :
    0 < countFailed rs ↔ ∃ r ∈ rs, r.success = false := by
  rw [countFailed, List.length_pos, Ne, List.filter_eq_nil_iff]
  push_neg
  simp [Bool.not_eq_true]

/-- C3 (amended): in a sync upload batch, every call whose error is not of
a fatal class is captured as a per-item result without aborting its
siblings (the results align positionally with the input), while the first
fatal-class error terminates the process and leaves the remaining calls
undispatched; in a purge deletion batch every error, fatal-class ones
included, is captured per-item and the batch always runs to completion. -/
theorem c3_failure_isolation :
    (∀ calls : List (Str × CallOutcome),
      (∀ p ∈ calls, ∀ e, p.2 = CallOutcome.err e → isFatalAwsError e = false) →
      uploadBatch calls = .completed (calls.map itemResult)) ∧
    (∀ (pre : List (Str × CallOutcome)) (n : Str) (e : ErrorInfo)
       (rest : List (Str × CallOutcome)),
      (∀ p ∈ pre, ∀ e', p.2 = CallOutcome.err e' → isFatalAwsError e' = false) →
      isFatalAwsError e = true →
      uploadBatch (pre ++ (n, CallOutcome.err e) :: rest) =
        .fatalAborted (rest.map Prod.fst) ∧
      dispatchedNames (pre ++ (n, CallOutcome.err e) :: rest) =
        pre.map Prod.fst ++ [n]) ∧
    (∀ calls : List (Str × CallOutcome),
      deleteBatch calls = calls.map itemResult) := by
  refine ⟨?_, ?_, ?_⟩
  · intro calls
    induction calls with
    | nil => intro _; rfl
    | cons p rest ih =>
      intro h
      obtain ⟨n, oc⟩ := p
      have hrest := ih (fun q hq e he => h q (List.mem_cons_of_mem _ hq) e he)
      cases oc with
      | ok => simp [uploadBatch, hrest, itemResult]
      | err e =>
        have hf := h (n, CallOutcome.err e) (List.mem_cons_self _ _) e rfl
        simp [uploadBatch, hf, hrest, itemResult]
  · intro pre n e rest h hfatal
    induction pre with
    | nil => simp [uploadBatch, dispatchedNames, hfatal]
    | cons q pre ih =>
      obtain ⟨m, oc⟩ := q
      have hq := ih (fun p hp e' he' => h p (List.mem_cons_of_mem _ hp) e' he')
      cases oc with
      | ok =>
        refine ⟨?_, ?_⟩
        · show (match uploadBatch (pre ++ (n, CallOutcome.err e) :: rest) with
            | UploadOutcome.completed rs =>
              UploadOutcome.completed (⟨true, m, none⟩ :: rs)
            | UploadOutcome.fatalAborted u => UploadOutcome.fatalAborted u) =
            UploadOutcome.fatalAborted (rest.map Prod.fst)
          rw [hq.1]
        · show m :: dispatchedNames (pre ++ (n, CallOutcome.err e) :: rest) =
            (m :: pre.map Prod.fst) ++ [n]
          rw [hq.2]
          rfl
      | err e' =>
        have hne := h (m, CallOutcome.err e') (List.mem_cons_self _ _) e' rfl
        refine ⟨?_, ?_⟩
        · show (if isFatalAwsError e' then
              UploadOutcome.fatalAborted
                ((pre ++ (n, CallOutcome.err e) :: rest).map Prod.fst)
            else
              match uploadBatch (pre ++ (n, CallOutcome.err e) :: rest) with
              | UploadOutcome.completed rs =>
                UploadOutcome.completed (⟨false, m, some e'.msg⟩ :: rs)
              | UploadOutcome.fatalAborted u => UploadOutcome.fatalAborted u) =
            UploadOutcome.fatalAborted (rest.map Prod.fst)
          rw [hne]
          simp only [Bool.false_eq_true, if_false]
          rw [hq.1]
        · show (if isFatalAwsError e' then [m]
            else m :: dispatchedNames (pre ++ (n, CallOutcome.err e) :: rest)) =
            (m :: pre.map Prod.fst) ++ [n]
          rw [hne]
          simp only [Bool.false_eq_true, if_false]
          rw [hq.2]
          rfl
  · intro calls
    induction calls with
    | nil => rfl
    | cons p rest ih =>
      obtain ⟨n, oc⟩ := p
      cases oc with
      | ok => simp [deleteBatch, ih, itemResult]
      | err e => simp [deleteBatch, ih, itemResult]

theorem c3_failure_isolation_witness :
    ((∀ p ∈ [((str "/p/a"), CallOutcome.ok),
             ((str "/p/b"), CallOutcome.err ⟨str "Throttling", str "rate exceeded"⟩)],
       ∀ e, p.2 = CallOutcome.err e → isFatalAwsError e = false) ∧
      uploadBatch [((str "/p/a"), CallOutcome.ok),
             ((str "/p/b"), CallOutcome.err ⟨str "Throttling", str "rate exceeded"⟩)] =
        .completed [⟨true, str "/p/a", none⟩,
                    ⟨false, str "/p/b", some (str "rate exceeded")⟩]) ∧
    (isFatalAwsError ⟨str "ExpiredTokenException", str "token expired"⟩ = true ∧
      uploadBatch [((str "/p/a"), CallOutcome.ok),
        ((str "/p/b"), CallOutcome.err ⟨str "ExpiredTokenException", str "token expired"⟩),
        ((str "/p/c"), CallOutcome.ok)] = .fatalAborted [str "/p/c"]) ∧
    deleteBatch [((str "/p/a"), CallOutcome.ok)] = [⟨true, str "/p/a", none⟩] := by
  have hyp1 : ∀ p ∈ [((str "/p/a"), CallOutcome.ok),
      ((str "/p/b"), CallOutcome.err ⟨str "Throttling", str "rate exceeded"⟩)],
      ∀ e, p.2 = CallOutcome.err e → isFatalAwsError e = false := by
    intro p hp e he
    simp only [List.mem_cons, List.not_mem_nil, or_false] at hp
    rcases hp with rfl | rfl
    · cases he
    · cases he
      decide
  have hyp2 : ∀ p ∈ [((str "/p/a"), CallOutcome.ok)],
      ∀ e', p.2 = CallOutcome.err e' → isFatalAwsError e' = false := by
    intro p hp e' he'
    simp only [List.mem_cons, List.not_mem_nil, or_false] at hp
    subst hp
    cases he'
  refine ⟨⟨hyp1, ?_⟩, ⟨by decide, ?_⟩, ?_⟩
  · exact c3_failure_isolation.1 _ hyp1
  · exact (c3_failure_isolation.2.1 [((str "/p/a"), CallOutcome.ok)] (str "/p/b")
      ⟨str "ExpiredTokenException", str "token expired"⟩ [((str "/p/c"), CallOutcome.ok)]
      hyp2 (by decide)).1
  · exact c3_failure_isolation.2.2 _

/-- C3 (counterexample): an authorization-class error on an individual
purge deletion does not abandon the batch and does not terminate the
process — it is captured as an ordinary per-item failure, the sibling
deletion still runs, and the purge completes with success status. -/
theorem c3_failure_isolation_counterexample :
    deleteBatch [((str "/p/a"),
        CallOutcome.err ⟨str "AccessDeniedException", str "not authorized"⟩),
      ((str "/p/b"), CallOutcome.ok)] =
      [⟨false, str "/p/a", some (str "not authorized")⟩,
       ⟨true, str "/p/b", none⟩] ∧
    isFatalAwsError ⟨str "AccessDeniedException", str "not authorized"⟩ = true ∧
    (purgeRun ⟨some (str "/p"), true, false⟩ [str "/p/a", str "/p/b"]
      (fun nm => if nm = str "/p/a" then
          CallOutcome.err ⟨str "AccessDeniedException", str "not authorized"⟩
        else CallOutcome.ok) (str "") (str "")).outcome = .success ∧
    (purgeRun ⟨some (str "/p"), true, false⟩ [str "/p/a", str "/p/b"]
      (fun nm => if nm = str "/p/a" then
          CallOutcome.err ⟨str "AccessDeniedException", str "not authorized"⟩
        else CallOutcome.ok) (str "") (str "")).deleteCalls =
      [str "/p/a", str "/p/b"] := by
  refine ⟨by decide, by decide, by decide, by decide⟩

/-- C2 (amended): when a sync upload batch completes without a fatal error
class, the process exits non-zero exactly when at least one per-item write
failed; a purge run that passes the paranoid and namespace checks always
completes with success status, even when individual deletions failed (the
failure breakdown is printed but the exit status stays zero). -/
theorem c2_exit_status :
    (∀ (opts : SyncOptions) (content : Str) (oracle : Str → CallOutcome)
       (ns : Str) (rs : List OpResult),
      opts.namespaceOpt = some ns → opts.dryRun = false →
      uploadBatch ((prepareParameters opts.encrypt ns
          (syncParseEnvContent content)).map
        (fun p => (p.Name, oracle p.Name))) = .completed rs →
      ((syncRun opts content oracle).outcome = .failure ↔
        ∃ r ∈ rs, r.success = false)) ∧
    (∀ (opts : PurgeOptions) (listed : List Str) (oracle : Str → CallOutcome)
       (a1 a2 ns : Str), opts.paranoid = false → opts.namespaceOpt = some ns →
      (purgeRun opts listed oracle a1 a2).outcome = .success) := by
  constructor
  · intro opts content oracle ns rs hns hdr hub
    obtain ⟨nso, d, enc⟩ := opts
    simp only at hns hdr hub
    subst hns hdr
    by_cases hE : (syncParseEnvContent content).isEmpty
    · have hnil : syncParseEnvContent content = [] := by
        simpa [List.isEmpty_iff] using hE
      rw [hnil] at hub
      simp only [prepareParameters, List.map_nil, uploadBatch] at hub
      obtain rfl : rs = [] := by
        cases hub
        rfl
      simp [syncRun, hE]
    · simp only [syncRun, hE, Bool.false_eq_true, if_false, hub]
      by_cases hf : 0 < countFailed rs
      · rw [if_pos hf]
        exact iff_of_true rfl ((countFailed_pos_iff rs).mp hf)
      · rw [if_neg hf]
        refine iff_of_false (by simp) ?_
        exact fun hx => hf ((countFailed_pos_iff rs).mpr hx)
  · intro opts listed oracle a1 a2 ns hp hns
    obtain ⟨nso, f, p⟩ := opts
    simp only at hp hns
    subst hp hns
    by_cases hL : listed.isEmpty
    · simp [purgeRun, hL]
    · by_cases hc : (askConfirmation f ns a1 a2).1 <;>
        simp [purgeRun, hL, hc]

theorem c2_exit_status_witness :
    ((⟨some (str "/t"), false, false⟩ : SyncOptions).namespaceOpt =
        some (str "/t") ∧
      (⟨some (str "/t"), false, false⟩ : SyncOptions).dryRun = false ∧
      uploadBatch ((prepareParameters false (str "/t")
          (syncParseEnvContent (str "A=1"))).map
        (fun p => (p.Name,
          (fun _ : Str =>
            CallOutcome.err ⟨str "Throttling", str "rate exceeded"⟩) p.Name))) =
        .completed [⟨false, str "/t/A", some (str "rate exceeded")⟩] ∧
      ((syncRun ⟨some (str "/t"), false, false⟩ (str "A=1")
          (fun _ => CallOutcome.err ⟨str "Throttling", str "rate exceeded"⟩)).outcome =
          .failure ↔
        ∃ r ∈ [(⟨false, str "/t/A", some (str "rate exceeded")⟩ : OpResult)],
          r.success = false)) ∧
    ((⟨some (str "/t/a"), false, false⟩ : PurgeOptions).paranoid = false ∧
      (purgeRun ⟨some (str "/t/a"), false, false⟩ [str "/t/a/A"]
        (fun _ => CallOutcome.ok) (str "yes") (str "/t/a")).outcome =
        .success) := by
  refine ⟨⟨rfl, rfl, by decide, ?_⟩, rfl, ?_⟩
  · exact c2_exit_status.1 ⟨some (str "/t"), false, false⟩ (str "A=1")
      (fun _ => CallOutcome.err ⟨str "Throttling", str "rate exceeded"⟩)
      (str "/t") [⟨false, str "/t/A", some (str "rate exceeded")⟩] rfl rfl (by decide)
  · exact c2_exit_status.2 ⟨some (str "/t/a"), false, false⟩ [str "/t/a/A"]
      (fun _ => CallOutcome.ok) (str "yes") (str "/t/a") (str "/t/a") rfl rfl

/-- C2 (counterexample): a purge run in which one deletion fails still
completes with success status, so the claimed "non-zero status iff at
least one item failed" is false for purge. -/
theorem c2_exit_status_counterexample :
    (purgeRun ⟨some (str "/t/a"), true, false⟩ [str "/t/a/A"]
      (fun _ => CallOutcome.err ⟨str "InternalServerError", str "boom"⟩)
      (str "") (str "")).results =
      [⟨false, str "/t/a/A", some (str "boom")⟩] ∧
    (purgeRun ⟨some (str "/t/a"), true, false⟩ [str "/t/a/A"]
      (fun _ => CallOutcome.err ⟨str "InternalServerError", str "boom"⟩)
      (str "") (str "")).outcome = .success ∧
    ProcOutcome.success ≠ ProcOutcome.failure := by
  refine ⟨by decide, by decide, by decide⟩

theorem parseValue_unquoted (v : Str) (rest : List Str)
    (h1 : startsWithChar '"' (trimJs v) = false)
    (h2 : startsWithChar '\'' (trimJs v) = false)
    (h3 : startsWithChar backtick (trimJs v) = false) :
    parseValue v rest = trimJs v := by
  by_cases hv : v = []
  · subst hv
    rfl
  · simp [parseValue, hv, h1, h2, h3]

theorem cleanQuotes_unquoted (t : Str)
    (h1 : startsWithChar '"' t = false)
    (h2 : startsWithChar '\'' t = false) :
    cleanQuotes t = t := by
  simp [cleanQuotes, h1, h2]

theorem syncParseLines_eq_parseEnvLines :
    ∀ (lines : List Str) (env : List (Str × Str)),
    (∀ l ∈ lines, plainLine l = true) →
    syncParseLines lines env = parseEnvLines lines env := by
  intro lines
  induction lines with
  | nil => intro env _; rfl
  | cons line rest ih =>
    intro env h
    have hline := h line (List.mem_cons_self _ _)
    have hrest : ∀ l ∈ rest, plainLine l = true := fun l hl =>
      h l (List.mem_cons_of_mem _ hl)
    simp only [plainLine, Bool.and_eq_true, beq_iff_eq] at hline
    obtain ⟨htrim, hval⟩ := hline
    by_cases hb : trimJs line = []
    · simp [syncParseLines, parseEnvLines, hb, ih _ hrest]
    · by_cases hh : startsWithChar '#' (trimJs line) = true
      · simp [syncParseLines, parseEnvLines, hb, hh, ih _ hrest]
      · rcases hm : matchKeyValue line with _ | kv
        · simp [syncParseLines, parseEnvLines, hb, hh, htrim, hm, ih _ hrest]
        · rw [hm] at hval
          simp only [Bool.not_eq_true', Bool.or_eq_false_iff] at hval
          obtain ⟨⟨hq1, hq2⟩, hq3⟩ := hval
          have hpv : parseValue kv.2 rest = trimJs kv.2 :=
            parseValue_unquoted kv.2 rest hq1 hq2 hq3
          have hcq : cleanQuotes (trimJs kv.2) = trimJs kv.2 :=
            cleanQuotes_unquoted (trimJs kv.2) hq1 hq2
          simp [syncParseLines, parseEnvLines, hb, hh, htrim, hm, hpv, hcq,
            ih _ hrest]

/-- C1 (amended): the sync engine does not delegate to EnvFileParser — it
has its own line parser — and the mapping it builds agrees with
EnvFileParser's parse only on restricted inputs: whenever every line of
the content is already trimmed and carries an unquoted value, the two
mappings coincide (same keys, same values, same order). -/
theorem c1_sync_mapping (content : Str)
    (h : ∀ l ∈ splitLines content, plainLine l = true) :
    syncParseEnvContent content = parseEnvContent content :=
  syncParseLines_eq_parseEnvLines (splitLines content) [] h

theorem c1_sync_mapping_witness :
    (∀ l ∈ splitLines (str "A=1\nB=two"), plainLine l = true) ∧
    syncParseEnvContent (str "A=1\nB=two") = parseEnvContent (str "A=1\nB=two") :=
  ⟨by decide, c1_sync_mapping (str "A=1\nB=two") (by decide)⟩

/-- C1 (counterexample): on the single-line content A="a\nb" the sync
engine merely strips the surrounding quotes and keeps the characters
backslash-n, while EnvFileParser decodes the escape into a line feed, so
the two mappings differ. -/
theorem c1_sync_mapping_counterexample :
    syncParseEnvContent (str "A=\"a\\nb\"") = [(str "A", str "a\\nb")] ∧
    parseEnvContent (str "A=\"a\\nb\"") = [(str "A", str "a\nb")] ∧
    syncParseEnvContent (str "A=\"a\\nb\"") ≠ parseEnvContent (str "A=\"a\\nb\"") := by
  refine ⟨by decide, by decide, by decide⟩

theorem quoteLoop_unclosed (close : Str → Bool) (dec : Str → Str) :
    ∀ (rest : List Str) (b : Nat) (fv orig : Str),
    (∀ k, k ≤ min b rest.length → close (accumAfter fv rest k) = false) →
    quoteLoop close dec orig fv rest b = orig := by
  intro rest
  induction rest with
  | nil =>
    intro b fv orig h
    have h0 := h 0 (Nat.zero_le _)
    simp only [accumAfter] at h0
    simp [quoteLoop, h0]
  | cons l rest ih =>
    intro b fv orig h
    have h0 := h 0 (Nat.zero_le _)
    simp only [accumAfter] at h0
    cases b with
    | zero => simp [quoteLoop, h0]
    | succ b =>
      have hrec : ∀ k, k ≤ min b rest.length →
          close (accumAfter (fv ++ '\n' :: l) rest k) = false := by
        intro k hk
        have hk' : k + 1 ≤ min (b + 1) (l :: rest).length := by
          simp only [List.length_cons]
          omega
        have := h (k + 1) hk'
        simpa [accumAfter] using this
      simp [quoteLoop, h0, ih b (fv ++ '\n' :: l) orig hrec]

theorem quoteLoop_closesAt (close : Str → Bool) (dec : Str → Str) :
    ∀ (rest : List Str) (b : Nat) (fv orig : Str) (k : Nat),
    k ≤ min b rest.length →
    (∀ j, j < k → close (accumAfter fv rest j) = false) →
    close (accumAfter fv rest k) = true →
    quoteLoop close dec orig fv rest b = dec (accumAfter fv rest k) := by
  intro rest
  induction rest with
  | nil =>
    intro b fv orig k hk hj hc
    have hk0 : k = 0 := by
      simp only [List.length_nil, Nat.min_zero, Nat.le_zero] at hk
      exact hk
    subst hk0
    simp only [accumAfter] at hc
    simp [quoteLoop, hc, accumAfter]
  | cons l rest ih =>
    intro b fv orig k hk hj hc
    cases k with
    | zero =>
      simp only [accumAfter] at hc
      cases b with
      | zero => simp [quoteLoop, hc, accumAfter]
      | succ b => simp [quoteLoop, hc, accumAfter]
    | succ k =>
      cases b with
      | zero =>
        exfalso
        simp only [Nat.zero_min] at hk
        omega
      | succ b =>
        have h0 := hj 0 (Nat.succ_pos _)
        simp only [accumAfter] at h0
        have hk' : k ≤ min b rest.length := by
          simp only [List.length_cons] at hk
          omega
        have hj' : ∀ j, j < k →
            close (accumAfter (fv ++ '\n' :: l) rest j) = false := by
          intro j hjk
          have := hj (j + 1) (Nat.succ_lt_succ hjk)
          simpa [accumAfter] using this
        have hc' : close (accumAfter (fv ++ '\n' :: l) rest k) = true := by
          simpa [accumAfter] using hc
        have hrec := ih b (fv ++ '\n' :: l) orig k hk' hj' hc'
        simp [quoteLoop, h0, hrec, accumAfter]

theorem mem_upsert : ∀ (env : List (Str × Str)) (k v : Str) (p : Str × Str),
    p ∈ upsert env k v → p ∈ env ∨ p.1 = k := by
  intro env
  induction env with
  | nil =>
    intro k v p h
    simp only [upsert, List.mem_singleton] at h
    subst h
    right
    rfl
  | cons hd rest ih =>
    intro k v p h
    obtain ⟨k', v'⟩ := hd
    by_cases hk : k' = k
    · simp only [upsert, if_pos hk] at h
      rcases List.mem_cons.mp h with h1 | h1
      · right
        rw [h1, hk]
      · left
        exact List.mem_cons_of_mem _ h1
    · simp only [upsert, if_neg hk] at h
      rcases List.mem_cons.mp h with h1 | h1
      · left
        rw [h1]
        exact List.mem_cons_self _ _
      · rcases ih k v p h1 with h2 | h2
        · left
          exact List.mem_cons_of_mem _ h2
        · right
          exact h2

theorem parseEnvLines_skip (line : Str) (rest : List Str)
    (env : List (Str × Str)) (hm : matchKeyValue line = none) :
    parseEnvLines (line :: rest) env = parseEnvLines rest env := by
  by_cases hb : trimJs line = []
  · simp [parseEnvLines, hb]
  · by_cases hh : startsWithChar '#' (trimJs line) = true
    · simp [parseEnvLines, hb, hh]
    · simp [parseEnvLines, hb, hh, hm]

theorem parseEnvLines_keys : ∀ (lines : List Str) (env : List (Str × Str))
    (p : Str × Str), p ∈ parseEnvLines lines env →
    p ∈ env ∨ ∃ line ∈ lines, ∃ v₀, matchKeyValue line = some (p.1, v₀) := by
  intro lines
  induction lines with
  | nil =>
    intro env p h
    left
    exact h
  | cons line rest ih =>
    intro env p h
    have lift : (p ∈ env ∨ ∃ l ∈ rest, ∃ v₀, matchKeyValue l = some (p.1, v₀)) →
        p ∈ env ∨ ∃ l ∈ line :: rest, ∃ v₀, matchKeyValue l = some (p.1, v₀) := by
      rintro (h1 | ⟨l, hl, v₀, hm⟩)
      · exact Or.inl h1
      · exact Or.inr ⟨l, List.mem_cons_of_mem _ hl, v₀, hm⟩
    by_cases hb : trimJs line = []
    · rw [show parseEnvLines (line :: rest) env = parseEnvLines rest env by
        simp [parseEnvLines, hb]] at h
      exact lift (ih env p h)
    · by_cases hh : startsWithChar '#' (trimJs line) = true
      · rw [show parseEnvLines (line :: rest) env = parseEnvLines rest env by
          simp [parseEnvLines, hb, hh]] at h
        exact lift (ih env p h)
      · rcases hm : matchKeyValue line with _ | kv
        · rw [parseEnvLines_skip line rest env hm] at h
          exact lift (ih env p h)
        · obtain ⟨k0, v0⟩ := kv
          rw [show parseEnvLines (line :: rest) env =
              parseEnvLines rest (upsert env k0 (parseValue v0 rest)) by
            simp [parseEnvLines, hb, hh, hm]] at h
          rcases ih _ p h with h1 | h1
          · rcases mem_upsert env k0 (parseValue v0 rest) p h1 with h2 | h2
            · exact Or.inl h2
            · exact Or.inr ⟨line, List.mem_cons_self _ _, v0, by rw [hm, h2]⟩
          · exact lift (Or.inr h1)

/-- C4: EnvFileParser's parse is total by construction and returns a
(possibly empty) mapping; a line without the KEY=VALUE shape contributes
nothing (every produced entry stems from a matching line), and each of the
three quoted decoders returns the original undecoded slice, leading quote
included, whenever no closing delimiter is found within the bounded
lookahead of 100 appended lines or by the end of the input. -/
theorem c4_env_file_parse_total :
    (∀ (line : Str) (rest : List Str) (env : List (Str × Str)),
      matchKeyValue line = none →
      parseEnvLines (line :: rest) env = parseEnvLines rest env) ∧
    (∀ (content : Str) (p : Str × Str), p ∈ parseEnvContent content →
      ∃ line ∈ splitLines content, ∃ v₀, matchKeyValue line = some (p.1, v₀)) ∧
    (∀ (v : Str) (rest : List Str),
      ¬(1 < v.length ∧ endsUnescaped '"' v = true) →
      (∀ k, k ≤ min 100 rest.length →
        endsUnescaped '"' (accumAfter (v.drop 1) rest k) = false) →
      parseDoubleQuoted v rest = v) ∧
    (∀ (v : Str) (rest : List Str),
      ¬(1 < v.length ∧ endsUnescaped '\'' v = true) →
      (∀ k, k ≤ min 100 rest.length →
        closeSingleML (accumAfter (v.drop 1) rest k) = false) →
      parseSingleQuoted v rest = v) ∧
    (∀ (v : Str) (rest : List Str),
      ¬(1 < v.length ∧ endsWithChar backtick v = true) →
      (∀ k, k ≤ min 100 rest.length →
        endsWithChar backtick (accumAfter (v.drop 1) rest k) = false) →
      parseBacktickQuoted v rest = v) := by
  refine ⟨parseEnvLines_skip, ?_, ?_, ?_, ?_⟩
  · intro content p h
    rcases parseEnvLines_keys (splitLines content) [] p h with h1 | h1
    · cases h1
    · exact h1
  · intro v rest hsame hloop
    have hcond : (decide (1 < v.length) && endsUnescaped '"' v) = false := by
      by_cases hl : 1 < v.length
      · have hq : endsUnescaped '"' v = false := by
          cases hq : endsUnescaped '"' v
          · rfl
          · exact absurd ⟨hl, hq⟩ hsame
        simp [hq]
      · simp [hl]
    simp only [parseDoubleQuoted, hcond, Bool.false_eq_true, if_false]
    exact quoteLoop_unclosed _ _ rest 100 (v.drop 1) v hloop
  · intro v rest hsame hloop
    have hcond : (decide (1 < v.length) && endsUnescaped '\'' v) = false := by
      by_cases hl : 1 < v.length
      · have hq : endsUnescaped '\'' v = false := by
          cases hq : endsUnescaped '\'' v
          · rfl
          · exact absurd ⟨hl, hq⟩ hsame
        simp [hq]
      · simp [hl]
    simp only [parseSingleQuoted, hcond, Bool.false_eq_true, if_false]
    exact quoteLoop_unclosed _ _ rest 100 (v.drop 1) v hloop
  · intro v rest hsame hloop
    have hcond : (decide (1 < v.length) && endsWithChar backtick v) = false := by
      by_cases hl : 1 < v.length
      · have hq : endsWithChar backtick v = false := by
          cases hq : endsWithChar backtick v
          · rfl
          · exact absurd ⟨hl, hq⟩ hsame
        simp [hq]
      · simp [hl]
    simp only [parseBacktickQuoted, hcond, Bool.false_eq_true, if_false]
    exact quoteLoop_unclosed _ _ rest 100 (v.drop 1) v hloop

theorem c4_env_file_parse_total_witness :
    (matchKeyValue (str "bad line") = none ∧
      parseEnvLines [str "bad line"] [] = parseEnvLines [] []) ∧
    ((str "A", str "1") ∈ parseEnvContent (str "A=1") ∧
      ∃ line ∈ splitLines (str "A=1"), ∃ v₀,
        matchKeyValue line = some (str "A", v₀)) ∧
    parseDoubleQuoted (str "\"unterminated") [] = str "\"unterminated" ∧
    parseSingleQuoted (str "'open") [] = str "'open" ∧
    parseBacktickQuoted ([backtick] ++ str "open") [] = [backtick] ++ str "open" := by
  have hnil : ∀ (q : Str → Bool) (w : Str), (∀ k, k ≤ min 100 ([] : List Str).length →
      q (accumAfter w [] k) = false) ↔ q w = false := by
    intro q w
    constructor
    · intro h
      have := h 0 (by simp)
      simpa [accumAfter] using this
    · intro h k hk
      simp only [List.length_nil, Nat.min_zero, Nat.le_zero] at hk
      subst hk
      simpa [accumAfter] using h
  refine ⟨⟨by decide, ?_⟩, ⟨by decide, ?_⟩, ?_, ?_, ?_⟩
  · exact c4_env_file_parse_total.1 (str "bad line") [] [] (by decide)
  · exact c4_env_file_parse_total.2.1 (str "A=1") (str "A", str "1") (by decide)
  · exact c4_env_file_parse_total.2.2.1 (str "\"unterminated") []
      (by decide) ((hnil _ _).mpr (by decide))
  · exact c4_env_file_parse_total.2.2.2.1 (str "'open") []
      (by decide) ((hnil _ _).mpr (by decide))
  · exact c4_env_file_parse_total.2.2.2.2 ([backtick] ++ str "open") []
      (by decide) ((hnil _ _).mpr (by decide))

theorem replaceEscapedSingleQuote_no_backslash :
    ∀ l : Str, '\\' ∉ l → replaceEscapedSingleQuote l = l := by
  intro l
  induction l with
  | nil => intro _; rfl
  | cons c rest ih =>
    intro h
    rcases rest with _ | ⟨c2, rest2⟩
    · rfl
    · have hc : c ≠ '\\' := fun hcc => h (hcc ▸ List.mem_cons_self _ _)
      have hcond : ¬(c = '\\' ∧ c2 = '\'') := fun hcc => hc hcc.1
      have htail : '\\' ∉ c2 :: rest2 := fun hm =>
        h (List.mem_cons_of_mem _ hm)
      simp only [replaceEscapedSingleQuote, if_neg hcond]
      rw [ih htail]

/-- C5 (amended): on the single-line path the parser closes a
single-quoted value with the even-backslash rule and decodes only the
escape backslash-quote into a quote, all other characters passing through
literally (so the input A='can\'t' decodes to can't); on the multi-line
collection path, however, the closing test is not the even-backslash rule
but "ends with a quote not immediately preceded by a backslash
character", and the first accumulated value passing that test is the one
decoded. -/
theorem c5_single_quote_rules :
    (∀ (v : Str) (rest : List Str), 1 < v.length →
      endsUnescaped '\'' v = true →
      parseSingleQuoted v rest =
        replaceEscapedSingleQuote ((v.drop 1).dropLast)) ∧
    (∀ l : Str, '\\' ∉ l → replaceEscapedSingleQuote l = l) ∧
    parseEnvContent (str "A='can\\'t'") = [(str "A", str "can't")] ∧
    (∀ (v : Str) (rest : List Str) (k : Nat),
      ¬(1 < v.length ∧ endsUnescaped '\'' v = true) →
      k ≤ min 100 rest.length →
      (∀ j, j < k → closeSingleML (accumAfter (v.drop 1) rest j) = false) →
      closeSingleML (accumAfter (v.drop 1) rest k) = true →
      parseSingleQuoted v rest =
        replaceEscapedSingleQuote ((accumAfter (v.drop 1) rest k).dropLast)) := by
  refine ⟨?_, replaceEscapedSingleQuote_no_backslash, by decide, ?_⟩
  · intro v rest h1 h2
    simp [parseSingleQuoted, h1, h2]
  · intro v rest k hsame hk hj hc
    have hcond : (decide (1 < v.length) && endsUnescaped '\'' v) = false := by
      by_cases hl : 1 < v.length
      · have hq : endsUnescaped '\'' v = false := by
          cases hq : endsUnescaped '\'' v
          · rfl
          · exact absurd ⟨hl, hq⟩ hsame
        simp [hq]
      · simp [hl]
    simp only [parseSingleQuoted, hcond, Bool.false_eq_true, if_false]
    exact quoteLoop_closesAt closeSingleML _ rest 100 (v.drop 1) v k hk hj hc

theorem c5_single_quote_rules_witness :
    (1 < (str "'can\\'t'").length ∧ endsUnescaped '\'' (str "'can\\'t'") = true ∧
      parseSingleQuoted (str "'can\\'t'") [] =
        replaceEscapedSingleQuote (((str "'can\\'t'").drop 1).dropLast)) ∧
    ('\\' ∉ str "literal" ∧ replaceEscapedSingleQuote (str "literal") = str "literal") ∧
    (closeSingleML (accumAfter (str "x") [str "y'"] 1) = true ∧
      parseSingleQuoted (str "'x") [str "y'"] =
        replaceEscapedSingleQuote ((accumAfter (str "x") [str "y'"] 1).dropLast)) := by
  refine ⟨⟨by decide, by decide, ?_⟩, ⟨by decide, ?_⟩, ⟨by decide, ?_⟩⟩
  · exact c5_single_quote_rules.1 (str "'can\\'t'") [] (by decide) (by decide)
  · exact c5_single_quote_rules.2.1 (str "literal") (by decide)
  · refine c5_single_quote_rules.2.2.2 (str "'x") [str "y'"] 1 (by decide)
      (by decide) ?_ (by decide)
    intro j hj
    have hj0 : j = 0 := by omega
    subst hj0
    decide

/-- C5 (counterexample): the multi-line path does not use the
even-backslash rule.  For the value starting 'x continued by the line
y\\' the accumulated value x-newline-y-backslash-backslash-quote ends in
a quote preceded by an even run of backslashes (two), so under the
claimed rule it would close and decode, yet the parser treats the quote
as escaped, finds no closing quote, and falls back to the original
still-quoted slice. -/
theorem c5_single_quote_counterexample :
    endsUnescaped '\'' (accumAfter ((str "'x").drop 1) [str "y\\\\'"] 1) = true ∧
    1 ≤ min 100 ([str "y\\\\'"] : List Str).length ∧
    parseSingleQuoted (str "'x") [str "y\\\\'"] = str "'x" ∧
    str "'x" ≠
      replaceEscapedSingleQuote
        ((accumAfter ((str "'x").drop 1) [str "y\\\\'"] 1).dropLast) := by
  refine ⟨by decide, by decide, by decide, by decide⟩

theorem includesSub_iff (hay needle : Str) :
    includesSub hay needle = true ↔ needle <:+: hay := by
  rw [includesSub, List.any_eq_true]
  constructor
  · rintro ⟨t, ht, hp⟩
    rw [List.mem_tails] at ht
    exact List.infix_iff_prefix_suffix.mpr ⟨t, List.isPrefixOf_iff_prefix.mp hp, ht⟩
  · intro h
    rcases List.infix_iff_prefix_suffix.mp h with ⟨t, hpre, hsuf⟩
    exact ⟨t, (List.mem_tails _ _).mpr hsuf, List.isPrefixOf_iff_prefix.mpr hpre⟩

theorem hasB64Run_iff (v : Str) :
    hasB64Run v = true ↔
      ∃ r : Str, r <:+: v ∧ r.length = 20 ∧ ∀ c ∈ r, isB64Char c = true := by
  rw [hasB64Run, List.any_eq_true]
  constructor
  · rintro ⟨t, ht, hc⟩
    rw [List.mem_tails] at ht
    rw [Bool.and_eq_true, decide_eq_true_iff] at hc
    obtain ⟨hlen, hall⟩ := hc
    refine ⟨t.take 20, ?_, ?_, ?_⟩
    · exact ((List.take_prefix 20 t).isInfix).trans ht.isInfix
    · rw [List.length_take]
      exact min_eq_left hlen
    · exact List.all_eq_true.mp hall
  · rintro ⟨r, hinf, hlen, hall⟩
    rcases List.infix_iff_prefix_suffix.mp hinf with ⟨t, hpre, hsuf⟩
    rcases hpre with ⟨u, rfl⟩
    refine ⟨r ++ u, (List.mem_tails _ _).mpr hsuf, ?_⟩
    rw [Bool.and_eq_true, decide_eq_true_iff]
    constructor
    · rw [List.length_append, hlen]
      omega
    · rw [List.take_left' hlen]
      exact List.all_eq_true.mpr hall

theorem isPrefixOf_eq_false_iff (a b : Str) :
    a.isPrefixOf b = false ↔ ¬(a <+: b) := by
  have h := @List.isPrefixOf_iff_prefix Char _ _ a b
  rw [← h]
  cases a.isPrefixOf b <;> simp

/-- C6: the secret classifier returns true exactly when the encrypt-all
flag is set, or the key case-insensitively contains one of the fixed
sensitive words, or the value is longer than 20 characters, contains a
run of 20 characters from the base64-ish alphabet, does not start with
http:// or https://, and is not composed solely of digits. -/
theorem c6_secret_classifier (e : Bool) (k v : Str) :
    isSecret e k v = true ↔
      e = true ∨
      (∃ w ∈ secretWordList, w <:+: k.map toLowerAscii) ∨
      (20 < v.length ∧
        (∃ r : Str, r <:+: v ∧ r.length = 20 ∧ ∀ c ∈ r, isB64Char c = true) ∧
        ¬(str "http://" <+: v) ∧ ¬(str "https://" <+: v) ∧
        ¬(v ≠ [] ∧ ∀ c ∈ v, c.isDigit = true)) := by
  cases e with
  | true => simp [isSecret]
  | false =>
    have hurl : isUrlValue v = false ↔
        (¬(str "http://" <+: v) ∧ ¬(str "https://" <+: v)) := by
      rw [isUrlValue, Bool.or_eq_false_iff, isPrefixOf_eq_false_iff,
        isPrefixOf_eq_false_iff]
    have hdig : isAllDigits v = false ↔
        ¬(v ≠ [] ∧ ∀ c ∈ v, c.isDigit = true) := by
      rw [isAllDigits]
      cases hE : v.isEmpty <;> cases hA : v.all (fun c => c.isDigit) <;>
        simp_all [List.isEmpty_iff, List.all_eq_true]
    have hkey : (secretWordList.any
        fun w => includesSub (k.map toLowerAscii) w) = true ↔
        ∃ w ∈ secretWordList, w <:+: k.map toLowerAscii := by
      rw [List.any_eq_true]
      exact exists_congr fun w => and_congr_right fun _ => includesSub_iff _ _
    have hval : (decide (20 < v.length) && hasB64Run v && !(isUrlValue v) &&
        !(isAllDigits v)) = true ↔
        (20 < v.length ∧
          (∃ r : Str, r <:+: v ∧ r.length = 20 ∧ ∀ c ∈ r, isB64Char c = true) ∧
          ¬(str "http://" <+: v) ∧ ¬(str "https://" <+: v) ∧
          ¬(v ≠ [] ∧ ∀ c ∈ v, c.isDigit = true)) := by
      simp only [Bool.and_eq_true, decide_eq_true_iff, Bool.not_eq_true']
      rw [hasB64Run_iff, hurl, hdig]
      tauto
    simp only [isSecret, Bool.false_eq_true, if_false, Bool.or_eq_true,
      false_or, hkey, hval]
